import Mathlib

/-!
Verification of the acceleration-scheme subsystem of `pyunlocbox`
(`pyunlocbox/acceleration.py`) against its natural-language specification.

The Python module is shallowly embedded below.  Floating point arithmetic
is modelled by exact arithmetic: `ℚ` where the code stays in the rational
operations (backtracking, the RNA bookkeeping), `ℝ` where square roots or
spectral data appear (FISTA, the RNA coefficient solve).  Numpy and scipy
routines (`np.linalg.solve`, `np.linalg.eigvals`, `np.linalg.norm`,
`scipy.optimize.linesearch.line_search_armijo`) and the solver object are
external collaborators of the module: they enter the embedding as explicit
parameters, or as definitions modelled from the specification's wording,
marked as such.  Code paths where numpy would raise (shape mismatches,
`min` of an empty list, indexing an out-of-range history entry) are
modelled by `Option`/default values and are outside every claim below.
-/

/-! ## Vectors over `ℚ`

The solution points handled by `backtracking` and `regularized_nonlinear`
are numpy arrays; we model them as functions `Fin n → ℚ`. -/

/-- `np.dot x y` on vectors. -/
def dotQ {n : ℕ} (x y : Fin n → ℚ) : ℚ := ∑ i, x i * y i

/-- `np.sum ((x)**2)`, the squared Euclidean norm used on line 212. -/
def sumSq {n : ℕ} (x : Fin n → ℚ) : ℚ := ∑ i, (x i) ^ 2

/-! ## `backtracking` (acceleration.py lines 146-220)

An objective function object, seen through the only two members the
backtracking scheme uses: `f.eval` and `f.grad` (the scheme's `_pre` has
already filtered on the GRAD capability, so both are present). -/

structure SmoothFun (n : ℕ) where
  eval : (Fin n → ℚ) → ℚ
  grad : (Fin n → ℚ) → (Fin n → ℚ)

/-- The scheme's own state: `self.eta`, `self.smooth_funs`, `self.sol`
(the snapshot tracked by the inherited `dummy._update_sol`). -/
structure BTState (n : ℕ) where
  eta : ℚ
  smooth_funs : List (SmoothFun n)
  sol : Fin n → ℚ

/-- The solver collaborator's fields read and written by `_update_step`:
`solver.step` and `solver.sol`. -/
structure SolverView (n : ℕ) where
  step : ℚ
  sol : Fin n → ℚ

/-- `backtracking.__init__` (lines 182-186): raises `ValueError` when
`eta > 1` or `eta <= 0`, otherwise stores `eta` unchanged. -/
def backtracking_init (eta : ℚ) : Except String ℚ :=
  if eta > 1 ∨ eta ≤ 0 then Except.error "eta must be between 0 and 1."
  else Except.ok eta

/-- `sum (f.eval x for f in fs)`: the summed smooth objective value. -/
def evalSum {n : ℕ} (fs : List (SmoothFun n)) (x : Fin n → ℚ) : ℚ :=
  (fs.map (fun f => f.eval x)).sum

/-- `sum (f.grad x for f in fs)`: the summed gradient (line 208). -/
def gradSum {n : ℕ} (fs : List (SmoothFun n)) (x : Fin n → ℚ) : Fin n → ℚ :=
  fun i => (fs.map (fun f => f.grad x i)).sum

/-- `objective[-1]` etc.: Python negative indexing from the end of the
history (`j = 1` is the last entry).  Out-of-range access, an IndexError
in Python, is modelled by the empty entry. -/
def objEntry (objective : List (List ℚ)) (j : ℕ) : List ℚ :=
  (objective.drop (objective.length - j)).headD []

/-- The `while` loop of `backtracking._update_step` (lines 210-215), with
explicit state passing: the loop state is `(solver.step, solver.sol, valp)`;
`algo` is the solver collaborator's `_algo`, recomputing `solver.sol` from
the current step.  `fuel` bounds the unrolling; `none` means the loop did
not exit within `fuel` iterations.  The step is exact arithmetic: the IEEE
underflow of a repeatedly shrunk float step to `0.0` (which exits the real
loop) is outside the model, so statements about non-termination are made
only at `eta = 1`, where the float step never changes and the two semantics
coincide. -/
def btLoopGo {n : ℕ} (algo : ℚ → Fin n → ℚ) (bt : BTState n) (valn : ℚ)
    (grad : Fin n → ℚ) : ℕ → ℚ → (Fin n → ℚ) → ℚ → Option (ℚ × (Fin n → ℚ))
  | 0, _, _, _ => none
  | fuel + 1, step, sol, valp =>
      if 2 * step * (valp - valn - dotQ (fun i => sol i - bt.sol i) grad) >
          sumSq (fun i => sol i - bt.sol i) then
        let step2 := step * bt.eta
        let sol2 := algo step2
        btLoopGo algo bt valn grad fuel step2 sol2 (evalSum bt.smooth_funs sol2)
      else some (step, sol)

/-- `backtracking._update_step` (lines 194-217): computes
`valn = np.sum(objective[-1])`, the initial `valp` at `solver.sol`, the
summed gradient at the snapshot `self.sol`, runs the shrink loop, and
returns the final step together with the mutated solver view and the
(untouched) scheme state. -/
def backtracking_update_step {n : ℕ} (algo : ℚ → Fin n → ℚ) (bt : BTState n)
    (solver : SolverView n) (objective : List (List ℚ)) (fuel : ℕ) :
    Option (ℚ × SolverView n × BTState n) :=
  let valn := (objEntry objective 1).sum
  let valp := evalSum bt.smooth_funs solver.sol
  let grad := gradSum bt.smooth_funs bt.sol
  (btLoopGo algo bt valn grad fuel solver.step solver.sol valp).map
    (fun r => (r.1, ⟨r.1, r.2⟩, bt))

/-- The solution point the loop sees at the start of its `m`-th test:
`solver.sol` for `m = 0`, and `algo (step0 · eta^m)` afterwards. -/
def btSolAt {n : ℕ} (algo : ℚ → Fin n → ℚ) (bt : BTState n)
    (sol0 : Fin n → ℚ) (step0 : ℚ) : ℕ → Fin n → ℚ
  | 0 => sol0
  | m + 1 => algo (step0 * bt.eta ^ (m + 1))

/-- The quadratic-majorant test of line 210-212 at the `m`-th stage of the
shrink loop. -/
def btCondAt {n : ℕ} (algo : ℚ → Fin n → ℚ) (bt : BTState n) (valn : ℚ)
    (grad : Fin n → ℚ) (sol0 : Fin n → ℚ) (step0 : ℚ) (m : ℕ) : Prop :=
  2 * (step0 * bt.eta ^ m) *
      (evalSum bt.smooth_funs (btSolAt algo bt sol0 step0 m) - valn -
        dotQ (fun i => btSolAt algo bt sol0 step0 m i - bt.sol i) grad) >
    sumSq (fun i => btSolAt algo bt sol0 step0 m i - bt.sol i)

instance {n : ℕ} (algo : ℚ → Fin n → ℚ) (bt : BTState n) (valn : ℚ)
    (grad : Fin n → ℚ) (sol0 : Fin n → ℚ) (step0 : ℚ) (m : ℕ) :
    Decidable (btCondAt algo bt valn grad sol0 step0 m) := by
  unfold btCondAt; infer_instance

/-- The trivial vector in dimension 0 and the degenerate solver/scheme data
used by the concrete backtracking scenarios. -/
def v0 : Fin 0 → ℚ := fun i => i.elim0

/-- A solver whose `_algo` leaves the trial point at the snapshot: this is
gradient descent probed at a stationary point of the smooth part. -/
def algoC : ℚ → Fin 0 → ℚ := fun _ => v0

/-- The constant-zero smooth objective: finite-valued, with identically zero
(hence bounded) gradient. -/
def smoothZero : SmoothFun 0 := ⟨fun _ => 0, fun _ => v0⟩

/-- Backtracking state with `eta = 1` — accepted by the constructor's
`(0, 1]` check — over the single smooth function `smoothZero`.  With
`eta = 1` the float `step *= eta` of line 213 is exact (the step never
changes), so no underflow can occur and the exact-arithmetic loop agrees
with the floating-point one at every stage. -/
def btC : BTState 0 := ⟨1, [smoothZero], v0⟩

/-- Backtracking state with `eta = 1/2` and no smooth functions. -/
def btW : BTState 0 := ⟨1/2, [], v0⟩

/-! ## `fista` (acceleration.py lines 228-266)

The FISTA momentum scheme manipulates the solution vectors only through
addition, subtraction and scalar multiplication, so the embedding is
generic in a real vector space `V`; the momentum scalar `t` lives in `ℝ`
because of the square root. -/

structure FistaState (V : Type) where
  t : ℝ
  sol : V

/-- The momentum recurrence of line 262:
`t_new = (1 + sqrt(1 + 4 t^2)) / 2`. -/
noncomputable def fistaTNew (t : ℝ) : ℝ := (1 + Real.sqrt (1 + 4 * t ^ 2)) / 2

/-- `fista._update_sol` (lines 260-266): restart `t` at iteration 1, apply
the recurrence, extrapolate, store the new `t` and the snapshot, return the
extrapolated point. -/
noncomputable def fista_update_sol {V : Type} [AddCommGroup V] [Module ℝ V]
    (st : FistaState V) (solverSol : V) (niter : ℕ) : V × FistaState V :=
  let t0 := if niter = 1 then 1 else st.t
  let t := fistaTNew t0
  (solverSol + ((t0 - 1) / t) • (solverSol - st.sol), ⟨t, solverSol⟩)

/-! ## The `lambda_` property setter (acceleration.py lines 345-359)

`regularized_nonlinear.lambda_` accepts a number or an iterable of
numbers.  Its validation behaviour depends on Python's `float()` builtin
and exception semantics, embedded here for the value shapes at play:
numbers, strings, lists and `None`. -/

inductive PyVal where
  | num (q : ℚ)
  | str (s : List Char)
  | pylist (l : List PyVal)
  | pynone

inductive PyErr where
  | typeError
  | valueError
deriving DecidableEq

/-- The value of a digit string, most significant first. -/
def digitsToNat (l : List Char) : ℕ :=
  l.foldl (fun a c => a * 10 + (c.toNat - Char.toNat '0')) 0

/-- Python's decimal `float()` string grammar, restricted to an optional
sign, integer digits and an optional fractional part (no exponents, which
no claim exercises): `none` models a `ValueError`. -/
def parsePyFloat (s : List Char) : Option ℚ :=
  let core : List Char → ℚ → Option ℚ := fun t sign =>
    match t.span Char.isDigit with
    | (intPart, []) =>
        if intPart.isEmpty then Option.none
        else some (sign * (digitsToNat intPart : ℚ))
    | (intPart, c :: frac) =>
        if c = '.' ∧ frac.all Char.isDigit ∧ ¬(intPart.isEmpty ∧ frac.isEmpty) then
          some (sign * ((digitsToNat intPart : ℚ) +
            (digitsToNat frac : ℚ) / (10 ^ frac.length)))
        else Option.none
  match s with
  | '-' :: t => core t (-1)
  | '+' :: t => core t 1
  | t => core t 1

/-- Python's `float(v)`: numbers convert, strings parse or raise
`ValueError`, lists and `None` raise `TypeError`. -/
def pyFloat : PyVal → Except PyErr ℚ
  | PyVal.num q => Except.ok q
  | PyVal.str s =>
      match parsePyFloat s with
      | some q => Except.ok q
      | Option.none => Except.error PyErr.valueError
  | PyVal.pylist _ => Except.error PyErr.typeError
  | PyVal.pynone => Except.error PyErr.typeError

/-- Python iteration: lists yield their elements, strings their
characters (as one-character strings); numbers and `None` raise
`TypeError` (modelled as `none`). -/
def pyIter : PyVal → Option (List PyVal)
  | PyVal.str s => some (s.map (fun c => PyVal.str [c]))
  | PyVal.pylist l => some l
  | _ => Option.none

/-- The comprehension `[float(elem) for elem in v]`: the first conversion
failure propagates. -/
def pyFloatList : List PyVal → Except PyErr (List ℚ)
  | [] => Except.ok []
  | v :: rest =>
      match pyFloat v with
      | Except.error e => Except.error e
      | Except.ok q =>
          match pyFloatList rest with
          | Except.error e => Except.error e
          | Except.ok l => Except.ok (q :: l)

/-- Diagnostic printed by the setter's inner handler (line 357). -/
def msgNumber : String := "User must provide a number"

/-- Diagnostic printed by the setter's outer handler (line 359). -/
def msgList : String := "User must provide a list of numbers"

/-- What one call of the `lambda_` setter leaves behind: the value of
`self._lambda_` if it was assigned, the diagnostics printed, and the
exception propagating out of the setter, if any. -/
structure SetterOutcome where
  lambdaSet : Option (List ℚ)
  printed : List String
  raised : Option PyErr
deriving DecidableEq

/-- The `lambda_.setter` (lines 349-359): try the list comprehension; on
`TypeError` retry with `float(lambda_)` whose own `ValueError` is printed
and whose `TypeError` propagates; on `ValueError` print and swallow.  In
the two printing branches `self._lambda_` is left unassigned. -/
def lambda_setter (v : PyVal) : SetterOutcome :=
  let inner : SetterOutcome :=
    match pyFloat v with
    | Except.ok q => ⟨some [q], [], Option.none⟩
    | Except.error PyErr.valueError => ⟨Option.none, [msgNumber], Option.none⟩
    | Except.error PyErr.typeError => ⟨Option.none, [], some PyErr.typeError⟩
  match pyIter v with
  | Option.none => inner
  | some elems =>
      match pyFloatList elems with
      | Except.ok l => ⟨some l, [], Option.none⟩
      | Except.error PyErr.typeError => inner
      | Except.error PyErr.valueError => ⟨Option.none, [msgList], Option.none⟩

/-! ## `regularized_nonlinear` (acceleration.py lines 269-458)

The RNA scheme's `_update_sol` mixes bookkeeping (buffer, grid lifecycle)
with dense linear algebra delegated to numpy/scipy.  The bookkeeping and
the grid-search control flow are embedded directly; the external calls
(`np.linalg.solve`, `np.linalg.eigvals`, `np.linalg.norm`, `np.log`,
`np.exp`, `line_search_armijo`) enter as the collaborator record
`NumpyOps`.  Small matrices are lists of rows. -/

structure NumpyOps (n : ℕ) where
  solveMat : List (List ℚ) → List ℚ → List ℚ
  eigvals : List (List ℚ) → List ℚ
  matNorm : List (List ℚ) → ℚ
  qlog : ℚ → ℚ
  qexp : ℚ → ℚ
  armijo : ((Fin n → ℚ) → ℚ) → (Fin n → ℚ) → (Fin n → ℚ) → (Fin n → ℚ) →
    ℚ → ℚ → ℚ → Option ℚ

/-- The scheme's state: the constructor configuration (lines 337-343), the
buffer and the function collection stored by `_pre` (lines 361-363);
functions are seen through `f.eval` only. -/
structure RNAState (n : ℕ) where
  k : ℕ
  lambda_ : List ℚ
  adaptive : Bool
  dolinesearch : Bool
  forcedecrease : Bool
  buffer : List (Fin n → ℚ)
  functions : List ((Fin n → ℚ) → ℚ)

/-- What one `_update_sol` call produces: the returned point, the state
left behind, and whether the line-search warning was emitted. -/
structure RNAResult (n : ℕ) where
  ret : Fin n → ℚ
  state : RNAState n
  warned : Bool

/-- `np.sum (f.eval x for f in fs)` over the stored function collection. -/
def fevalSum {n : ℕ} (fs : List ((Fin n → ℚ) → ℚ)) (x : Fin n → ℚ) : ℚ :=
  (fs.map (fun f => f x)).sum

/-- `np.diff(buffer, axis=0)` (line 373): consecutive differences. -/
def rnaDiff {n : ℕ} (buf : List (Fin n → ℚ)) : List (Fin n → ℚ) :=
  List.zipWith (fun b a => fun i => b i - a i) buf.tail buf

/-- `np.dot(U, U.T)` (line 374): the Gram matrix of the differences. -/
def rnaGram {n : ℕ} (U : List (Fin n → ℚ)) : List (List ℚ) :=
  U.map (fun ui => U.map (fun uj => dotQ ui uj))

/-- `UU /= np.linalg.norm(UU)` (line 375). -/
def matScale (c : ℚ) (M : List (List ℚ)) : List (List ℚ) :=
  M.map (fun row => row.map (fun x => x / c))

/-- The normalized Gram matrix of the buffered differences (lines 373-375). -/
def rnaUU {n : ℕ} (ops : NumpyOps n) (buf : List (Fin n → ℚ)) : List (List ℚ) :=
  let UU := rnaGram (rnaDiff buf)
  matScale (ops.matNorm UU) UU

/-- Insertion into a sorted list, for the `np.sort` model. -/
def insertSorted (x : ℚ) : List ℚ → List ℚ
  | [] => [x]
  | y :: ys => if x ≤ y then x :: y :: ys else y :: insertSorted x ys

/-- `np.sort`: ascending insertion sort. -/
def sortQ (l : List ℚ) : List ℚ := l.foldr insertSorted []

/-- `0.5 * (svals[:-1] + svals[1:])` (line 383): adjacent averages. -/
def pairAvg (l : List ℚ) : List ℚ :=
  List.zipWith (fun a b => (a + b) / 2) l l.tail

/-- The adaptive grid rebuild (lines 381-384): sorted absolute eigenvalues
of the normalized Gram matrix, log-transformed, adjacent-averaged,
exponentiated, with `0` prepended. -/
def rnaRebuildGrid {n : ℕ} (ops : NumpyOps n) (UU : List (List ℚ)) : List ℚ :=
  let svals := sortQ ((ops.eigvals UU).map (fun x => |x|))
  0 :: (pairAvg (svals.map ops.qlog)).map ops.qexp

/-- The grid the extrapolating call searches over (lines 379-384): rebuilt
when `adaptive` holds and the configured grid has at most one entry,
otherwise the configured grid itself. -/
def rnaGridUsed {n : ℕ} (ops : NumpyOps n) (s : RNAState n)
    (UU : List (List ℚ)) : List ℚ :=
  if s.adaptive = true ∧ s.lambda_.length ≤ 1 then rnaRebuildGrid ops UU
  else s.lambda_

/-- `UU + lambda_ * np.eye(k)` (line 393). -/
def addLamEye (M : List (List ℚ)) (lam : ℚ) : List (List ℚ) :=
  (List.range M.length).map (fun i =>
    (List.range (M.getD i []).length).map (fun j =>
      (M.getD i []).getD j 0 + if i = j then lam else 0))

/-- Lines 393-395: solve `(UU + lambda*I) c = ones(k)` through the numpy
collaborator, then normalize `c` to unit sum. -/
def rnaCoefFor {n : ℕ} (ops : NumpyOps n) (k : ℕ) (UU : List (List ℚ))
    (lam : ℚ) : List ℚ :=
  let c := ops.solveMat (addLamEye UU lam) (List.replicate k 1)
  c.map (fun x => x / c.sum)

/-- `np.dot(np.asarray(buffer[:-1]).T, c)` (line 397): the combination of
the first `k` buffered points with coefficients `c`. -/
def rnaExtrapFor {n : ℕ} (buf : List (Fin n → ℚ)) (c : List ℚ) : Fin n → ℚ :=
  fun i => (List.zipWith (fun x q => q * x i) buf.dropLast c).sum

/-- The grid-search objective values (lines 387-399), one per candidate. -/
def rnaFvals {n : ℕ} (ops : NumpyOps n) (s : RNAState n)
    (buf : List (Fin n → ℚ)) (UU : List (List ℚ)) (grid : List ℚ) : List ℚ :=
  grid.map (fun lam => fevalSum s.functions (rnaExtrapFor buf (rnaCoefFor ops s.k UU lam)))

/-- Python's `min` over a list (`ValueError`, hence `none`, when empty). -/
def listMin : List ℚ → Option ℚ
  | [] => Option.none
  | x :: xs => some (xs.foldl min x)

/-- Steps 4 and recompute (lines 401-417): the force-decrease guard falls
back to the solver's current solution; otherwise the best candidate (first
index attaining the minimum, as `fvals.index`) is re-solved. -/
def rnaPreLS {n : ℕ} (ops : NumpyOps n) (s : RNAState n)
    (solverSol : Fin n → ℚ) (objective : List (List ℚ))
    (buf : List (Fin n → ℚ)) (UU : List (List ℚ)) (grid fvals : List ℚ)
    (minval : ℚ) : Fin n → ℚ :=
  if s.forcedecrease = true ∧ minval > (objEntry objective 1).sum then solverSol
  else rnaExtrapFor buf (rnaCoefFor ops s.k UU (grid.getD (fvals.indexOf minval) 0))

/-- The line-search refinement (lines 420-445): when enabled, call the
scipy collaborator with `xk = buffer[0]`, `pk = extrap - xk`, `gfk = pk`,
`old_fval = np.sum(objective[-k])`, `c1 = 1e-4`, `alpha0 = 1`; a `none`
answer warns and keeps the point, a step `a` moves to `xk + a * pk`.
The returned flag records whether the warning was emitted. -/
def rnaLineSearch {n : ℕ} (ops : NumpyOps n) (s : RNAState n)
    (objective : List (List ℚ)) (buf : List (Fin n → ℚ))
    (extrap : Fin n → ℚ) : Bool × (Fin n → ℚ) :=
  if s.dolinesearch = true then
    let xk := buf.headD (fun _ => 0)
    let pk := fun i => extrap i - xk i
    match ops.armijo (fun x => fevalSum s.functions x) xk pk pk
        (objEntry objective s.k).sum (1/10000) 1 with
    | Option.none => (true, extrap)
    | some a => (false, fun i => xk i + a * pk i)
  else (false, extrap)

/-- `regularized_nonlinear._update_sol` (lines 365-455).  A non-multiple
iteration appends a copy of the current solution and returns it; a
multiple of `k+1` appends, runs the grid search, the force-decrease guard
and the line search, clears the buffer (and, if adaptive, the grid), and
returns the final point.  `none` stands for the numpy/Python errors of the
degenerate shapes: a buffer whose length is not `k+1`, or an empty grid
(`min` of an empty sequence). -/
def rna_update_sol {n : ℕ} (ops : NumpyOps n) (s : RNAState n)
    (solverSol : Fin n → ℚ) (objective : List (List ℚ)) (niter : ℕ) :
    Option (RNAResult n) :=
  if niter % (s.k + 1) = 0 then
    let buf := s.buffer ++ [solverSol]
    if buf.length = s.k + 1 then
      let UU := rnaUU ops buf
      let grid := rnaGridUsed ops s UU
      let fvals := rnaFvals ops s buf UU grid
      match listMin fvals with
      | Option.none => Option.none
      | some minval =>
          let ls := rnaLineSearch ops s objective buf
            (rnaPreLS ops s solverSol objective buf UU grid fvals minval)
          some ⟨ls.2,
            { s with buffer := [],
                     lambda_ := if s.adaptive = true then [] else s.lambda_ },
            ls.1⟩
    else Option.none
  else
    some ⟨solverSol, { s with buffer := s.buffer ++ [solverSol] }, false⟩

/-- The iterated run: state after `m` calls with iteration indices
`1, 2, ..., m`, fed the solver points `sols` and histories `objs`. -/
def rnaRun {n : ℕ} (ops : NumpyOps n) (sols : ℕ → Fin n → ℚ)
    (objs : ℕ → List (List ℚ)) (s0 : RNAState n) : ℕ → Option (RNAState n)
  | 0 => some s0
  | m + 1 =>
      (rnaRun ops sols objs s0 m).bind (fun s =>
        (rna_update_sol ops s (sols (m + 1)) (objs (m + 1)) (m + 1)).map
          RNAResult.state)

/-- Degenerate collaborator record in dimension 0, for concrete scenarios. -/
def opsW : NumpyOps 0 :=
  ⟨fun _ _ => [], fun _ => [], fun _ => 0, fun _ => 0, fun _ => 0,
    fun _ _ _ _ _ _ _ => Option.none⟩

/-- The empty vector. -/
def zeroVec0 : Fin 0 → ℚ := fun i => i.elim0

/-- A fresh adaptive RNA state with `k = 1`. -/
def rnaW : RNAState 0 := ⟨1, [1], true, true, true, [], []⟩

/-- A fresh adaptive RNA state with `k = 0`: its first call extrapolates. -/
def rnaW3 : RNAState 0 := ⟨0, [5, 7], true, true, true, [], []⟩

/-- Modelled from the spec: `scipy.optimize.linesearch.line_search_armijo`
is imported on line 23 but its code is not part of this repository.  The
specification describes it as a backtracking (Armijo) line search: starting
from `alpha0`, accept a step `a` satisfying the sufficient-decrease
condition `f(xk + a*pk) ≤ old_fval + c1 * a * ⟨gfk, pk⟩`, shrinking
otherwise, and report failure (`None`) when no acceptable step is found
within the iteration budget. -/
def armijoGo {n : ℕ} (f : (Fin n → ℚ) → ℚ) (xk pk gfk : Fin n → ℚ)
    (old_fval c1 : ℚ) : ℕ → ℚ → Option ℚ
  | 0, _ => Option.none
  | fuel + 1, a =>
      if f (fun i => xk i + a * pk i) ≤ old_fval + c1 * a * dotQ gfk pk then some a
      else armijoGo f xk pk gfk old_fval c1 fuel (a / 2)

/-- The smooth objective of the C1 scenario: its value is 0 at the midpoint
`1/2` and 10 everywhere else. -/
def fobjC : (Fin 1 → ℚ) → ℚ := fun x => if x 0 = 1/2 then 0 else 10

/-- Collaborator record for the C1 scenario: the numpy calls are exact on
the one-by-one matrices the scenario reaches, and the line search is the
spec-modelled Armijo backtracking with budget 20. -/
def opsC : NumpyOps 1 where
  solveMat := fun A b =>
    match A, b with
    | [[x]], [y] => [y / x]
    | _, _ => []
  eigvals := fun A =>
    match A with
    | [[x]] => [x]
    | _ => []
  matNorm := fun A =>
    match A with
    | [[x]] => |x|
    | _ => 0
  qlog := fun _ => 0
  qexp := fun _ => 0
  armijo := fun f xk pk gfk old c1 alpha0 => armijoGo f xk pk gfk old c1 20 alpha0

/-- RNA state (`k = 1`, all flags on) holding one buffered point `0`,
about to receive the solver solution `1` on iteration 2. -/
def rnaStateC : RNAState 1 :=
  ⟨1, [1/1000000], true, true, true, [fun _ => 0], [fobjC]⟩

/-- The same scenario with the line search disabled. -/
def rnaStateC2 : RNAState 1 :=
  ⟨1, [1/1000000], true, false, true, [fun _ => 0], [fobjC]⟩

/-- A fresh adaptive RNA state with `k = 0` and a single-entry grid. -/
def rnaW9 : RNAState 0 := ⟨0, [5], true, true, true, [], []⟩

/-! ## RNA coefficient normalization over `ℝ` (lines 391-399)

The coefficient claim is real linear algebra, so for it the solve of line
393 is modelled over `ℝ`: `np.linalg.solve` on a non-degenerate system
returns the exact solution `A⁻¹ b`, and the buffer is a `k`-indexed
family of points. -/

/-- `np.linalg.solve(UU + lambda*I, np.ones(k))` (lines 393-394). -/
noncomputable def rnaCoef (k : ℕ) (A : Matrix (Fin k) (Fin k) ℝ) : Fin k → ℝ :=
  A⁻¹.mulVec (fun _ => 1)

/-- `c /= np.sum(c)` (line 395). -/
noncomputable def rnaCoefNorm (k : ℕ) (A : Matrix (Fin k) (Fin k) ℝ) : Fin k → ℝ :=
  fun i => rnaCoef k A i / (∑ j, rnaCoef k A j)

/-- `np.dot(np.asarray(buffer[:-1]).T, c)` (line 397) over `ℝ`. -/
noncomputable def rnaExtrapR (k d : ℕ) (buf : Fin k → Fin d → ℝ)
    (c : Fin k → ℝ) : Fin d → ℝ := fun j => ∑ i, buf i j * c i

/-! ## Theorems -/

/-- Soundness of the shrink loop: a returned step is the initial step times
`eta^m2`, where the majorant condition held at every earlier stage and
fails at stage `m2`. -/
theorem btLoopGo_sound {n : ℕ} (algo : ℚ → Fin n → ℚ) (bt : BTState n)
    (valn : ℚ) (grad : Fin n → ℚ) (sol0 : Fin n → ℚ) (step0 : ℚ) :
    ∀ fuel m st sl,
      btLoopGo algo bt valn grad fuel (step0 * bt.eta ^ m)
          (btSolAt algo bt sol0 step0 m)
          (evalSum bt.smooth_funs (btSolAt algo bt sol0 step0 m)) = some (st, sl) →
      ∃ m2, m ≤ m2 ∧ st = step0 * bt.eta ^ m2
        ∧ sl = btSolAt algo bt sol0 step0 m2
        ∧ (∀ j, m ≤ j → j < m2 → btCondAt algo bt valn grad sol0 step0 j)
        ∧ ¬ btCondAt algo bt valn grad sol0 step0 m2 := by
  intro fuel
  induction fuel with
  | zero => intro m st sl h; exact absurd h (by simp [btLoopGo])
  | succ fuel ih =>
    intro m st sl h
    by_cases hc : btCondAt algo bt valn grad sol0 step0 m
    · have hc2 := hc
      unfold btCondAt at hc2
      rw [btLoopGo, if_pos hc2] at h
      have e1 : step0 * bt.eta ^ m * bt.eta = step0 * bt.eta ^ (m + 1) := by ring
      rw [e1] at h
      have h2 : btLoopGo algo bt valn grad fuel (step0 * bt.eta ^ (m + 1))
          (btSolAt algo bt sol0 step0 (m + 1))
          (evalSum bt.smooth_funs (btSolAt algo bt sol0 step0 (m + 1))) =
          some (st, sl) := h
      obtain ⟨m2, hle, hst, hsl, hall, hnot⟩ := ih (m + 1) st sl h2
      refine ⟨m2, Nat.le_trans (Nat.le_succ m) hle, hst, hsl, ?_, hnot⟩
      intro j hmj hjm2
      rcases Nat.eq_or_lt_of_le hmj with hj | hj
      · exact hj ▸ hc
      · exact hall j hj hjm2
    · have hc2 : ¬ (2 * (step0 * bt.eta ^ m) *
          (evalSum bt.smooth_funs (btSolAt algo bt sol0 step0 m) - valn -
            dotQ (fun i => btSolAt algo bt sol0 step0 m i - bt.sol i) grad) >
          sumSq (fun i => btSolAt algo bt sol0 step0 m i - bt.sol i)) := hc
      rw [btLoopGo, if_neg hc2] at h
      obtain ⟨h1, h2⟩ := Prod.mk.injEq _ _ _ _ ▸ Option.some.injEq _ _ ▸ h
      exact ⟨m, Nat.le_refl m, h1.symm, h2.symm,
        fun j hmj hjm => absurd (Nat.lt_of_le_of_lt hmj hjm) (Nat.lt_irrefl m), hc⟩

/-- Termination of the shrink loop: as soon as the majorant condition fails
at some stage within the fuel, the loop returns. -/
theorem btLoopGo_term {n : ℕ} (algo : ℚ → Fin n → ℚ) (bt : BTState n)
    (valn : ℚ) (grad : Fin n → ℚ) (sol0 : Fin n → ℚ) (step0 : ℚ) :
    ∀ fuel m, (∃ j, j < fuel ∧ ¬ btCondAt algo bt valn grad sol0 step0 (m + j)) →
      ∃ r, btLoopGo algo bt valn grad fuel (step0 * bt.eta ^ m)
          (btSolAt algo bt sol0 step0 m)
          (evalSum bt.smooth_funs (btSolAt algo bt sol0 step0 m)) = some r := by
  intro fuel
  induction fuel with
  | zero => rintro m ⟨j, hj, -⟩; exact absurd hj (Nat.not_lt_zero j)
  | succ fuel ih =>
    rintro m ⟨j, hj, hnot⟩
    by_cases hc : btCondAt algo bt valn grad sol0 step0 m
    · have hc2 := hc
      unfold btCondAt at hc2
      rcases j with - | j0
      · exact absurd hc (by simpa using hnot)
      · have hnot2 : ¬ btCondAt algo bt valn grad sol0 step0 ((m + 1) + j0) := by
          have e : m + (j0 + 1) = (m + 1) + j0 := by omega
          exact e ▸ hnot
        obtain ⟨r, hr⟩ := ih (m + 1) ⟨j0, by omega, hnot2⟩
        refine ⟨r, ?_⟩
        rw [btLoopGo, if_pos hc2]
        have e1 : step0 * bt.eta ^ m * bt.eta = step0 * bt.eta ^ (m + 1) := by ring
        rw [e1]
        exact hr
    · have hc2 : ¬ (2 * (step0 * bt.eta ^ m) *
          (evalSum bt.smooth_funs (btSolAt algo bt sol0 step0 m) - valn -
            dotQ (fun i => btSolAt algo bt sol0 step0 m i - bt.sol i) grad) >
          sumSq (fun i => btSolAt algo bt sol0 step0 m i - bt.sol i)) := hc
      exact ⟨_, by rw [btLoopGo, if_neg hc2]⟩

/-- C6 (amended): any step returned by `backtracking._update_step` equals the
initial step times `eta^m`, with the quadratic-majorant inequality holding at
every earlier shrink stage and failing at stage `m`; and the loop returns as
soon as the inequality fails at any stage (but it need not terminate for
every finite-valued smooth objective with bounded gradient, see the
counterexample). -/
theorem C6_backtracking_geometric_shrink {n : ℕ} (algo : ℚ → Fin n → ℚ)
    (bt : BTState n) (solver : SolverView n) (objective : List (List ℚ)) :
    (∀ fuel st solver2 bt2,
        backtracking_update_step algo bt solver objective fuel
          = some (st, solver2, bt2) →
        ∃ m, st = solver.step * bt.eta ^ m
          ∧ (∀ j, j < m → btCondAt algo bt ((objEntry objective 1).sum)
              (gradSum bt.smooth_funs bt.sol) solver.sol solver.step j)
          ∧ ¬ btCondAt algo bt ((objEntry objective 1).sum)
              (gradSum bt.smooth_funs bt.sol) solver.sol solver.step m)
    ∧ ((∃ m, ¬ btCondAt algo bt ((objEntry objective 1).sum)
            (gradSum bt.smooth_funs bt.sol) solver.sol solver.step m) →
        ∃ fuel r, backtracking_update_step algo bt solver objective fuel = some r) := by
  constructor
  · intro fuel st solver2 bt2 h
    rw [backtracking_update_step] at h
    rcases hr : btLoopGo algo bt ((objEntry objective 1).sum)
        (gradSum bt.smooth_funs bt.sol) fuel solver.step solver.sol
        (evalSum bt.smooth_funs solver.sol) with - | r
    · rw [hr] at h; exact absurd h (by simp)
    · rw [hr] at h
      simp only [Option.map_some'] at h
      have hst : st = r.1 := by
        have := congrArg (fun o => o.map (fun x => x.1)) h.symm
        simpa using this
      have hloop : btLoopGo algo bt ((objEntry objective 1).sum)
          (gradSum bt.smooth_funs bt.sol) fuel (solver.step * bt.eta ^ 0)
          (btSolAt algo bt solver.sol solver.step 0)
          (evalSum bt.smooth_funs (btSolAt algo bt solver.sol solver.step 0)) =
          some (r.1, r.2) := by
        rw [pow_zero, mul_one]; exact hr
      obtain ⟨m2, -, h1, -, hall, hnot⟩ :=
        btLoopGo_sound algo bt _ _ solver.sol solver.step fuel 0 r.1 r.2 hloop
      exact ⟨m2, hst ▸ h1, fun j hj => hall j (Nat.zero_le j) hj, hnot⟩
  · rintro ⟨m, hm⟩
    have hm0 : ¬ btCondAt algo bt ((objEntry objective 1).sum)
        (gradSum bt.smooth_funs bt.sol) solver.sol solver.step (0 + m) := by
      simpa using hm
    obtain ⟨r, hr⟩ := btLoopGo_term algo bt ((objEntry objective 1).sum)
        (gradSum bt.smooth_funs bt.sol) solver.sol solver.step (m + 1) 0
        ⟨m, Nat.lt_succ_self m, hm0⟩
    rw [pow_zero, mul_one] at hr
    have hr2 : btLoopGo algo bt ((objEntry objective 1).sum)
        (gradSum bt.smooth_funs bt.sol) (m + 1) solver.step solver.sol
        (evalSum bt.smooth_funs solver.sol) = some r := hr
    refine ⟨m + 1, (r.1, ⟨r.1, r.2⟩, bt), ?_⟩
    rw [backtracking_update_step, hr2]
    rfl

/-- On the `btC` scenario the majorant condition holds at every positive
step, so the loop never exits: each stage shrinks the step and recurses. -/
theorem btLoopGo_neverC : ∀ fuel step (sol : Fin 0 → ℚ), 0 < step →
    btLoopGo algoC btC (-1) (gradSum btC.smooth_funs btC.sol) fuel step sol 0 = none := by
  intro fuel
  induction fuel with
  | zero => intro step sol hstep; rfl
  | succ fuel ih =>
    intro step sol hstep
    have hcond : 2 * step * (0 - (-1) - dotQ (fun i => sol i - btC.sol i)
        (gradSum btC.smooth_funs btC.sol)) >
        sumSq (fun i => sol i - btC.sol i) := by
      have hd : dotQ (fun i => sol i - btC.sol i)
          (gradSum btC.smooth_funs btC.sol) = 0 := by
        simp [dotQ]
      have hs : sumSq (fun i => sol i - btC.sol i) = 0 := by
        simp [sumSq]
      rw [hd, hs]
      have : (2 : ℚ) * step * (0 - (-1) - 0) = 2 * step := by ring
      rw [this]
      positivity
    rw [btLoopGo, if_pos hcond]
    show btLoopGo algoC btC (-1) (gradSum btC.smooth_funs btC.sol) fuel
      (step * btC.eta) (algoC (step * btC.eta))
      (evalSum btC.smooth_funs (algoC (step * btC.eta))) = none
    have hval : evalSum btC.smooth_funs (algoC (step * btC.eta)) = 0 := by
      simp [evalSum, btC, smoothZero]
    rw [hval]
    exact ih (step * btC.eta) (algoC (step * btC.eta)) (by
      have he : btC.eta = 1 := rfl
      rw [he, mul_one]; exact hstep)

/-- C6 counterexample: with `eta = 1` (accepted by the constructor, and
making the float `step *= eta` exact, so the real program behaves as the
model does), the constant-zero smooth objective (bounded gradient), a
solver stalled at a stationary point, and a recorded objective entry whose
non-smooth part is negative, `_update_step` loops forever: the step never
shrinks and the majorant condition holds at every stage. -/
theorem C6_counterexample :
    backtracking_init btC.eta = Except.ok btC.eta
    ∧ (∀ fuel, backtracking_update_step algoC btC ⟨1, v0⟩ [[0, -1]] fuel = none)
    ∧ btCondAt algoC btC ((objEntry [[0, -1]] 1).sum)
        (gradSum btC.smooth_funs btC.sol) v0 1 0 := by
  refine ⟨?_, ?_, ?_⟩
  · rw [backtracking_init, if_neg (by norm_num [btC])]
  · intro fuel
    rw [backtracking_update_step]
    rw [show SolverView.sol (⟨1, v0⟩ : SolverView 0) = v0 from rfl,
      show SolverView.step (⟨1, v0⟩ : SolverView 0) = 1 from rfl]
    have hvaln : (objEntry [[0, -1]] 1).sum = -1 := by
      norm_num [objEntry]
    have hvalp : evalSum btC.smooth_funs v0 = 0 := by
      simp [evalSum, btC, smoothZero]
    rw [hvaln, hvalp, btLoopGo_neverC fuel 1 v0 (by norm_num)]
    rfl
  · unfold btCondAt
    have hd : dotQ (fun i => btSolAt algoC btC v0 1 0 i - btC.sol i)
        (gradSum btC.smooth_funs btC.sol) = 0 := by simp [dotQ]
    have hs : sumSq (fun i => btSolAt algoC btC v0 1 0 i - btC.sol i) = 0 := by
      simp [sumSq]
    rw [hd, hs]
    have hv : evalSum btC.smooth_funs (btSolAt algoC btC v0 1 0) = 0 := by
      simp [evalSum, btC, smoothZero]
    have hn : (objEntry [[0, -1]] 1).sum = -1 := by norm_num [objEntry]
    rw [hv, hn]
    norm_num

/-- Concrete instance for C6: with no smooth functions the condition fails
immediately, so the loop returns and every returned step is the geometric
value described by the theorem. -/
theorem C6_witness :
    ∃ fuel st solver2 bt2,
      backtracking_update_step algoC btW ⟨1, v0⟩ [[0]] fuel
        = some (st, solver2, bt2)
      ∧ ∃ m, st = (SolverView.step (⟨1, v0⟩ : SolverView 0)) * btW.eta ^ m
        ∧ (∀ j, j < m → btCondAt algoC btW ((objEntry [[0]] 1).sum)
            (gradSum btW.smooth_funs btW.sol)
            (SolverView.sol (⟨1, v0⟩ : SolverView 0))
            (SolverView.step (⟨1, v0⟩ : SolverView 0)) j)
        ∧ ¬ btCondAt algoC btW ((objEntry [[0]] 1).sum)
            (gradSum btW.smooth_funs btW.sol)
            (SolverView.sol (⟨1, v0⟩ : SolverView 0))
            (SolverView.step (⟨1, v0⟩ : SolverView 0)) m := by
  have hnot : ¬ btCondAt algoC btW ((objEntry [[0]] 1).sum)
      (gradSum btW.smooth_funs btW.sol) (SolverView.sol (⟨1, v0⟩ : SolverView 0))
      (SolverView.step (⟨1, v0⟩ : SolverView 0)) 0 := by
    unfold btCondAt
    simp [dotQ, sumSq, evalSum, btW, objEntry]
  obtain ⟨fuel, r, hr⟩ :=
    (C6_backtracking_geometric_shrink algoC btW ⟨1, v0⟩ [[0]]).2 ⟨0, hnot⟩
  obtain ⟨st, solver2, bt2⟩ := r
  exact ⟨fuel, st, solver2, bt2, hr,
    (C6_backtracking_geometric_shrink algoC btW ⟨1, v0⟩ [[0]]).1
      fuel st solver2 bt2 hr⟩

/-- C10: `_update_step` leaves the solver's stored step equal to the
returned value, and does not modify any field of the scheme's own state. -/
theorem C10_update_step_frame {n : ℕ} (algo : ℚ → Fin n → ℚ) (bt : BTState n)
    (solver : SolverView n) (objective : List (List ℚ)) :
    ∀ fuel st solver2 bt2,
      backtracking_update_step algo bt solver objective fuel
        = some (st, solver2, bt2) →
      solver2.step = st ∧ bt2 = bt := by
  intro fuel st solver2 bt2 h
  rw [backtracking_update_step] at h
  rcases hr : btLoopGo algo bt ((objEntry objective 1).sum)
      (gradSum bt.smooth_funs bt.sol) fuel solver.step solver.sol
      (evalSum bt.smooth_funs solver.sol) with - | r
  · rw [hr] at h; exact absurd h (by simp)
  · rw [hr] at h
    simp only [Option.map_some', Option.some.injEq] at h
    injection h with h1 h23
    injection h23 with h2 h3
    exact ⟨by rw [← h2, ← h1], h3.symm⟩

/-- Concrete instance for C10: an immediately exiting call whose solver view
stores the returned step, scheme state untouched. -/
theorem C10_witness :
    ∃ st solver2 bt2,
      backtracking_update_step algoC btW ⟨1, v0⟩ [[0]] 1
        = some (st, solver2, bt2)
      ∧ solver2.step = st ∧ bt2 = btW := by
  have hnot : ¬ btCondAt algoC btW ((objEntry [[0]] 1).sum)
      (gradSum btW.smooth_funs btW.sol) (SolverView.sol (⟨1, v0⟩ : SolverView 0))
      (SolverView.step (⟨1, v0⟩ : SolverView 0)) (0 + 0) := by
    unfold btCondAt
    simp [dotQ, sumSq, evalSum, btW, objEntry]
  obtain ⟨r, hr⟩ := btLoopGo_term algoC btW ((objEntry [[0]] 1).sum)
      (gradSum btW.smooth_funs btW.sol) (SolverView.sol (⟨1, v0⟩ : SolverView 0))
      (SolverView.step (⟨1, v0⟩ : SolverView 0)) 1 0 ⟨0, Nat.zero_lt_one, hnot⟩
  rw [pow_zero, mul_one] at hr
  have hr2 : btLoopGo algoC btW ((objEntry [[0]] 1).sum)
      (gradSum btW.smooth_funs btW.sol) 1 (SolverView.step (⟨1, v0⟩ : SolverView 0))
      (SolverView.sol (⟨1, v0⟩ : SolverView 0))
      (evalSum btW.smooth_funs (SolverView.sol (⟨1, v0⟩ : SolverView 0)))
      = some r := hr
  have hsome : backtracking_update_step algoC btW ⟨1, v0⟩ [[0]] 1 =
      some (r.1, ⟨r.1, r.2⟩, btW) := by
    rw [backtracking_update_step, hr2]
    rfl
  exact ⟨r.1, ⟨r.1, r.2⟩, btW, hsome,
    C10_update_step_frame algoC btW ⟨1, v0⟩ [[0]] 1 r.1 ⟨r.1, r.2⟩ btW hsome⟩

/-- C5: at iteration index 1 the momentum scalar is reset to 1 regardless
of prior state; the recurrence satisfies `t_new > t` for every `t ≥ 1`; the
call returns `sol + ((t0 - 1)/t_new) • (sol - snapshot)`, stores `t_new`,
and moves the snapshot to the solver's current solution. -/
theorem C5_fista_recurrence {V : Type} [AddCommGroup V] [Module ℝ V] :
    (∀ (st : FistaState V) (solverSol : V),
        fista_update_sol st solverSol 1 = fista_update_sol ⟨1, st.sol⟩ solverSol 1)
    ∧ (∀ t : ℝ, 1 ≤ t → t < fistaTNew t)
    ∧ (∀ (st : FistaState V) (solverSol : V) (niter : ℕ), niter ≠ 1 →
        fista_update_sol st solverSol niter =
          (solverSol + ((st.t - 1) / fistaTNew st.t) • (solverSol - st.sol),
            ⟨fistaTNew st.t, solverSol⟩))
    ∧ (∀ (st : FistaState V) (solverSol : V),
        fista_update_sol st solverSol 1 =
          (solverSol + ((1 - 1) / fistaTNew 1) • (solverSol - st.sol),
            ⟨fistaTNew 1, solverSol⟩)) := by
  refine ⟨fun st solverSol => rfl, fun t ht => ?_, fun st solverSol niter hn => ?_,
    fun st solverSol => ?_⟩
  · have hle : Real.sqrt (4 * t ^ 2) ≤ Real.sqrt (1 + 4 * t ^ 2) :=
      Real.sqrt_le_sqrt (by nlinarith)
    have heq : Real.sqrt (4 * t ^ 2) = 2 * t := by
      rw [show (4 : ℝ) * t ^ 2 = (2 * t) ^ 2 by ring, Real.sqrt_sq (by linarith)]
    unfold fistaTNew
    rw [heq] at hle
    linarith
  · simp [fista_update_sol, hn]
  · simp [fista_update_sol]

/-- Concrete instance for C5: the restart at iteration 1 and the strict
growth of the recurrence at `t = 1`. -/
theorem C5_witness :
    (1 : ℝ) < fistaTNew 1
    ∧ fista_update_sol (V := ℝ) ⟨5, 2⟩ 3 1 = fista_update_sol ⟨1, 2⟩ 3 1 :=
  ⟨(C5_fista_recurrence (V := ℝ)).2.1 1 le_rfl,
    (C5_fista_recurrence (V := ℝ)).1 ⟨5, 2⟩ 3⟩

/-- C4 counterexample: the non-convertible value `"abc"` does not raise at
construction; the setter prints a diagnostic, swallows the `ValueError`,
and leaves the grid attribute unset. -/
theorem C4_counterexample :
    pyFloat (PyVal.str ('a' :: 'b' :: 'c' :: [])) = Except.error PyErr.valueError
    ∧ (lambda_setter (PyVal.str ('a' :: 'b' :: 'c' :: []))).raised = Option.none
    ∧ (lambda_setter (PyVal.str ('a' :: 'b' :: 'c' :: []))).lambdaSet = Option.none
    ∧ (lambda_setter (PyVal.str ('a' :: 'b' :: 'c' :: []))).printed = [msgList] := by
  refine ⟨rfl, ?_, ?_, ?_⟩ <;> rfl

/-- C4 (amended): a `lambda_` whose conversion fails with a `ValueError`
only prints a diagnostic, raises nothing, and leaves `_lambda_` unset
(failing later on first access).  An exception — always a `TypeError` —
propagates at construction exactly when the comprehension path fails with
a `TypeError` (iterating a non-iterable such as `None`, or an iterable
holding wrongly-typed elements such as `[None]`) and the scalar retry
`float(lambda_)` raises one too; `_lambda_` is then likewise unset. -/
theorem C4_lambda_validation (v : PyVal) :
    (∀ elems, pyIter v = some elems →
        pyFloatList elems = Except.error PyErr.valueError →
        lambda_setter v = ⟨Option.none, [msgList], Option.none⟩)
    ∧ (pyIter v = Option.none → pyFloat v = Except.error PyErr.valueError →
        lambda_setter v = ⟨Option.none, [msgNumber], Option.none⟩)
    ∧ ((lambda_setter v).raised = some PyErr.typeError ↔
        pyFloat v = Except.error PyErr.typeError ∧
          (pyIter v = Option.none ∨
            ∃ elems, pyIter v = some elems ∧
              pyFloatList elems = Except.error PyErr.typeError))
    ∧ ((lambda_setter v).raised = Option.none ∨
        (lambda_setter v).raised = some PyErr.typeError)
    ∧ ((lambda_setter v).raised = some PyErr.typeError →
        (lambda_setter v).lambdaSet = Option.none) := by
  rcases hiter : pyIter v with - | elems
  · rcases hfv : pyFloat v with e | q
    · cases e
      · have heq : lambda_setter v = ⟨Option.none, [], some PyErr.typeError⟩ := by
          simp [lambda_setter, hiter, hfv]
        refine ⟨?_, ?_, ?_, ?_, ?_⟩ <;> simp_all
      · have heq : lambda_setter v = ⟨Option.none, [msgNumber], Option.none⟩ := by
          simp [lambda_setter, hiter, hfv]
        refine ⟨?_, ?_, ?_, ?_, ?_⟩ <;> simp_all
    · have heq : lambda_setter v = ⟨some [q], [], Option.none⟩ := by
        simp [lambda_setter, hiter, hfv]
      refine ⟨?_, ?_, ?_, ?_, ?_⟩ <;> simp_all
  · rcases hfl : pyFloatList elems with e | l
    · cases e
      · rcases hfv : pyFloat v with e2 | q
        · cases e2
          · have heq : lambda_setter v = ⟨Option.none, [], some PyErr.typeError⟩ := by
              simp [lambda_setter, hiter, hfl, hfv]
            refine ⟨?_, ?_, ?_, ?_, ?_⟩ <;> simp_all
          · have heq : lambda_setter v = ⟨Option.none, [msgNumber], Option.none⟩ := by
              simp [lambda_setter, hiter, hfl, hfv]
            refine ⟨?_, ?_, ?_, ?_, ?_⟩ <;> simp_all
        · have heq : lambda_setter v = ⟨some [q], [], Option.none⟩ := by
            simp [lambda_setter, hiter, hfl, hfv]
          refine ⟨?_, ?_, ?_, ?_, ?_⟩ <;> simp_all
      · have heq : lambda_setter v = ⟨Option.none, [msgList], Option.none⟩ := by
          simp [lambda_setter, hiter, hfl]
        refine ⟨?_, ?_, ?_, ?_, ?_⟩ <;> simp_all
    · have heq : lambda_setter v = ⟨some l, [], Option.none⟩ := by
        simp [lambda_setter, hiter, hfl]
      refine ⟨?_, ?_, ?_, ?_, ?_⟩ <;> simp_all

/-- Concrete instance for C4 (amended): the string `"abc"` is swallowed
with a printed diagnostic; `None` (non-iterable) and `[None]` (iterable,
element of the wrong type) both propagate a `TypeError`. -/
theorem C4_witness :
    lambda_setter (PyVal.str ('a' :: 'b' :: 'c' :: []))
      = ⟨Option.none, [msgList], Option.none⟩
    ∧ (lambda_setter PyVal.pynone).raised = some PyErr.typeError
    ∧ (lambda_setter (PyVal.pylist [PyVal.pynone])).raised = some PyErr.typeError :=
  ⟨(C4_lambda_validation (PyVal.str ('a' :: 'b' :: 'c' :: []))).1
      (PyVal.str ['a'] :: PyVal.str ['b'] :: PyVal.str ['c'] :: [])
      rfl rfl,
    ((C4_lambda_validation PyVal.pynone).2.2.1).mpr ⟨rfl, Or.inl rfl⟩,
    ((C4_lambda_validation (PyVal.pylist [PyVal.pynone])).2.2.1).mpr
      ⟨rfl, Or.inr ⟨[PyVal.pynone], rfl, rfl⟩⟩⟩

/-- A non-extrapolating call gathers the point and returns it unchanged. -/
theorem rna_update_sol_gather {n : ℕ} (ops : NumpyOps n) (s : RNAState n)
    (sol : Fin n → ℚ) (obj : List (List ℚ)) (niter : ℕ)
    (h : niter % (s.k + 1) ≠ 0) :
    rna_update_sol ops s sol obj niter =
      some ⟨sol, { s with buffer := s.buffer ++ [sol] }, false⟩ := by
  rw [rna_update_sol, if_neg h]

/-- A nonempty list has a Python minimum. -/
theorem listMin_ne_nil {l : List ℚ} (h : l ≠ []) : ∃ m, listMin l = some m := by
  cases l with
  | nil => exact absurd rfl h
  | cons x xs => exact ⟨xs.foldl min x, rfl⟩

/-- The adaptive rebuild always yields a nonempty grid (it prepends `0`). -/
theorem rnaRebuildGrid_ne_nil {n : ℕ} (ops : NumpyOps n) (UU : List (List ℚ)) :
    rnaRebuildGrid ops UU ≠ [] := by
  simp [rnaRebuildGrid]

/-- The grid searched on an extrapolating call is nonempty as soon as the
configuration is sane: adaptive, or a nonempty configured grid. -/
theorem rnaGridUsed_ne_nil {n : ℕ} (ops : NumpyOps n) (s : RNAState n)
    (UU : List (List ℚ)) (hgrid : s.adaptive = true ∨ s.lambda_ ≠ []) :
    rnaGridUsed ops s UU ≠ [] := by
  rw [rnaGridUsed]
  by_cases hc : s.adaptive = true ∧ s.lambda_.length ≤ 1
  · rw [if_pos hc]; exact rnaRebuildGrid_ne_nil ops UU
  · rw [if_neg hc]
    rcases hgrid with ha | hl
    · intro hnil
      exact hc ⟨ha, by simp [hnil]⟩
    · exact hl

/-- An extrapolating call with the right buffer length and a sane grid
configuration succeeds, clears the buffer, resets the grid exactly when
adaptive, and preserves every configuration field. -/
theorem rna_update_sol_extrap {n : ℕ} (ops : NumpyOps n) (s : RNAState n)
    (sol : Fin n → ℚ) (obj : List (List ℚ)) (niter : ℕ)
    (h : niter % (s.k + 1) = 0) (hlen : s.buffer.length = s.k)
    (hgrid : s.adaptive = true ∨ s.lambda_ ≠ []) :
    ∃ r, rna_update_sol ops s sol obj niter = some r
      ∧ r.state.buffer = []
      ∧ r.state.lambda_ = (if s.adaptive = true then [] else s.lambda_)
      ∧ r.state.k = s.k ∧ r.state.adaptive = s.adaptive
      ∧ r.state.dolinesearch = s.dolinesearch
      ∧ r.state.forcedecrease = s.forcedecrease
      ∧ r.state.functions = s.functions := by
  have hshape : (s.buffer ++ [sol]).length = s.k + 1 := by simp [hlen]
  have hfv : rnaFvals ops s (s.buffer ++ [sol]) (rnaUU ops (s.buffer ++ [sol]))
      (rnaGridUsed ops s (rnaUU ops (s.buffer ++ [sol]))) ≠ [] := by
    have := rnaGridUsed_ne_nil ops s (rnaUU ops (s.buffer ++ [sol])) hgrid
    simpa [rnaFvals] using this
  obtain ⟨mv, hmv⟩ := listMin_ne_nil hfv
  rw [rna_update_sol, if_pos h, if_pos hshape]
  simp only [hmv]
  exact ⟨_, rfl, rfl, rfl, rfl, rfl, rfl, rfl, rfl⟩

/-- Any successful call preserves the configuration fields, and changes the
grid only on an extrapolating adaptive call (where it is cleared). -/
theorem rna_update_sol_fields {n : ℕ} (ops : NumpyOps n) (s : RNAState n)
    (sol : Fin n → ℚ) (obj : List (List ℚ)) (niter : ℕ) (r : RNAResult n)
    (h : rna_update_sol ops s sol obj niter = some r) :
    r.state.k = s.k ∧ r.state.adaptive = s.adaptive
    ∧ r.state.dolinesearch = s.dolinesearch
    ∧ r.state.forcedecrease = s.forcedecrease
    ∧ r.state.functions = s.functions
    ∧ r.state.lambda_ = (if niter % (s.k + 1) = 0 then
        (if s.adaptive = true then [] else s.lambda_) else s.lambda_) := by
  rw [rna_update_sol] at h
  by_cases hmod : niter % (s.k + 1) = 0
  · rw [if_pos hmod] at h
    by_cases hshape : (s.buffer ++ [sol]).length = s.k + 1
    · rw [if_pos hshape] at h
      rcases hmv : listMin (rnaFvals ops s (s.buffer ++ [sol])
          (rnaUU ops (s.buffer ++ [sol]))
          (rnaGridUsed ops s (rnaUU ops (s.buffer ++ [sol])))) with - | mv
      · simp only [hmv] at h; exact absurd h (by simp)
      · simp only [hmv, Option.some.injEq] at h
        rw [← h]
        simp [hmod]
    · rw [if_neg hshape] at h; exact absurd h (by simp)
  · rw [if_neg hmod] at h
    simp only [Option.some.injEq] at h
    rw [← h]
    simp [hmod]

/-- Stepping the remainder: over a modulus of at least 2, the remainder of
`m + 1` either wraps to 0 from `K - 1` or increments that of `m`. -/
theorem mod_step {K m : ℕ} (hK : 2 ≤ K) :
    ((m + 1) % K = 0 → m % K = K - 1)
    ∧ ((m + 1) % K ≠ 0 → (m + 1) % K = m % K + 1) := by
  have h1 : 1 % K = 1 := Nat.mod_eq_of_lt (by omega)
  have key : (m + 1) % K = (m % K + 1) % K := by
    conv_lhs => rw [Nat.add_mod]
    rw [h1]
  have hr : m % K < K := Nat.mod_lt _ (by omega)
  by_cases hlt : m % K + 1 < K
  · have hid : (m % K + 1) % K = m % K + 1 := Nat.mod_eq_of_lt hlt
    exact ⟨fun h0 => by rw [key, hid] at h0; omega,
      fun _ => by rw [key, hid]⟩
  · have heq : m % K + 1 = K := by omega
    have h0 : (m % K + 1) % K = 0 := by rw [heq]; exact Nat.mod_self K
    exact ⟨fun _ => by omega, fun hne => absurd (key.trans h0) hne⟩

/-- The run invariant behind the RNA buffer cycle: after `m` calls the run
has a state, its buffer holds `m % (k+1)` snapshots, and the configuration
stays sane. -/
theorem rnaRunInvariant {n : ℕ} (ops : NumpyOps n) (sols : ℕ → Fin n → ℚ)
    (objs : ℕ → List (List ℚ)) (s0 : RNAState n) (k : ℕ)
    (hk : 0 < k) (hks : s0.k = k) (hbuf : s0.buffer = [])
    (hgrid : s0.adaptive = true ∨ s0.lambda_ ≠ []) :
    ∀ m, ∃ s, rnaRun ops sols objs s0 m = some s
      ∧ s.buffer.length = m % (k + 1)
      ∧ s.k = k ∧ s.adaptive = s0.adaptive
      ∧ (s.adaptive = true ∨ s.lambda_ ≠ []) := by
  intro m
  induction m with
  | zero =>
    refine ⟨s0, rfl, by simp [hbuf], hks, rfl, ?_⟩
    rcases hgrid with ha | hl
    · exact Or.inl ha
    · exact Or.inr hl
  | succ m ih =>
    obtain ⟨s, hrun, hlen, hk2, had, hg⟩ := ih
    by_cases hmod : (m + 1) % (k + 1) = 0
    · have hblen : s.buffer.length = s.k := by
        rw [hk2, hlen]
        have := (mod_step (K := k + 1) (m := m) (by omega)).1 hmod
        omega
      obtain ⟨r, hcall, hbuf2, hlam2, hk3, had3, -, -, -⟩ :=
        rna_update_sol_extrap ops s (sols (m + 1)) (objs (m + 1)) (m + 1)
          (by rw [hk2]; exact hmod) hblen hg
      refine ⟨r.state, ?_, ?_, by rw [hk3, hk2], by rw [had3, had], ?_⟩
      · rw [rnaRun, hrun, Option.some_bind, hcall, Option.map_some']
      · rw [hbuf2]; simp [hmod]
      · rcases hg with ha | hl
        · exact Or.inl (by rw [had3]; exact ha)
        · by_cases hA : s.adaptive = true
          · exact Or.inl (by rw [had3]; exact hA)
          · exact Or.inr (by rw [hlam2, if_neg hA]; exact hl)
    · have hcall := rna_update_sol_gather ops s (sols (m + 1)) (objs (m + 1)) (m + 1)
        (by rw [hk2]; exact hmod)
      refine ⟨{ s with buffer := s.buffer ++ [sols (m + 1)] }, ?_, ?_, hk2, had, ?_⟩
      · rw [rnaRun, hrun, Option.some_bind, hcall, Option.map_some']
      · simp only [List.length_append, List.length_cons, List.length_nil, hlen]
        have := (mod_step (K := k + 1) (m := m) (by omega)).2 hmod
        omega
      · rcases hg with ha | hl
        · exact Or.inl ha
        · exact Or.inr hl

/-- C2: over any run with call indices `1, 2, 3, ...` and positive `k`, a
call extrapolates exactly when its index is a multiple of `k+1` — the
buffer is empty immediately afterwards — and every other call appends one
snapshot and returns the solver's current solution unchanged, so the buffer
length always equals the number of calls since the last reset. -/
theorem C2_rna_buffer_cycle {n : ℕ} (ops : NumpyOps n) (sols : ℕ → Fin n → ℚ)
    (objs : ℕ → List (List ℚ)) (s0 : RNAState n) (k : ℕ)
    (hk : 0 < k) (hks : s0.k = k) (hbuf : s0.buffer = [])
    (hgrid : s0.adaptive = true ∨ s0.lambda_ ≠ []) :
    ∀ m, ∃ s, rnaRun ops sols objs s0 m = some s
      ∧ s.buffer.length = m % (k + 1)
      ∧ ((m + 1) % (k + 1) ≠ 0 →
          rna_update_sol ops s (sols (m + 1)) (objs (m + 1)) (m + 1) =
            some ⟨sols (m + 1), { s with buffer := s.buffer ++ [sols (m + 1)] },
              false⟩)
      ∧ ((m + 1) % (k + 1) = 0 →
          ∃ r, rna_update_sol ops s (sols (m + 1)) (objs (m + 1)) (m + 1) = some r
            ∧ r.state.buffer = []) := by
  intro m
  obtain ⟨s, hrun, hlen, hk2, had, hg⟩ :=
    rnaRunInvariant ops sols objs s0 k hk hks hbuf hgrid m
  refine ⟨s, hrun, hlen, fun hne =>
    rna_update_sol_gather ops s (sols (m + 1)) (objs (m + 1)) (m + 1)
      (by rw [hk2]; exact hne), fun heq => ?_⟩
  have hblen : s.buffer.length = s.k := by
    rw [hk2, hlen]
    have := (mod_step (K := k + 1) (m := m) (by omega)).1 heq
    omega
  obtain ⟨r, hcall, hbuf2, -⟩ :=
    rna_update_sol_extrap ops s (sols (m + 1)) (objs (m + 1)) (m + 1)
      (by rw [hk2]; exact heq) hblen hg
  exact ⟨r, hcall, hbuf2⟩

/-- Concrete instance for C2: after two calls (`k = 1`) the second call has
extrapolated and the buffer is empty again. -/
theorem C2_witness :
    ∃ s, rnaRun opsW (fun _ => zeroVec0) (fun _ => [[0]]) rnaW 2 = some s
      ∧ s.buffer.length = 2 % (1 + 1) := by
  obtain ⟨s, h1, h2, -, -⟩ := C2_rna_buffer_cycle opsW (fun _ => zeroVec0)
    (fun _ => [[0]]) rnaW 1 (by norm_num) rfl rfl (Or.inl rfl) 2
  exact ⟨s, h1, h2⟩

/-- C3: the grid searched by an extrapolating call is the adaptive rebuild
(from the sorted absolute eigenvalues of the normalized Gram matrix,
log-averaged pairwise, exponentiated, with 0 prepended) exactly when
`adaptive` holds and the current grid has at most one entry; an adaptive
extrapolating call clears the grid, a non-extrapolating call leaves it
untouched, and a non-adaptive configuration never sees its grid modified
over any run. -/
theorem C3_rna_adaptive_grid_lifecycle {n : ℕ} (ops : NumpyOps n)
    (sols : ℕ → Fin n → ℚ) (objs : ℕ → List (List ℚ)) (s : RNAState n) :
    (∀ UU, rnaGridUsed ops s UU =
        if s.adaptive = true ∧ s.lambda_.length ≤ 1 then rnaRebuildGrid ops UU
        else s.lambda_)
    ∧ (∀ sol obj niter r, niter % (s.k + 1) = 0 →
        rna_update_sol ops s sol obj niter = some r →
        r.state.lambda_ = (if s.adaptive = true then [] else s.lambda_))
    ∧ (∀ sol obj niter r, niter % (s.k + 1) ≠ 0 →
        rna_update_sol ops s sol obj niter = some r →
        r.state.lambda_ = s.lambda_)
    ∧ (s.adaptive = false → ∀ m s2, rnaRun ops sols objs s m = some s2 →
        s2.lambda_ = s.lambda_ ∧ s2.adaptive = false) := by
  refine ⟨fun UU => rfl, fun sol obj niter r hmod h => ?_, fun sol obj niter r hmod h => ?_, fun hA m => ?_⟩
  · have := (rna_update_sol_fields ops s sol obj niter r h).2.2.2.2.2
    rwa [if_pos hmod] at this
  · have := (rna_update_sol_fields ops s sol obj niter r h).2.2.2.2.2
    rwa [if_neg hmod] at this
  · induction m with
    | zero =>
      intro s2 h
      have : s = s2 := by simpa [rnaRun] using h
      rw [← this]
      exact ⟨rfl, hA⟩
    | succ m ih =>
      intro s2 h
      rw [rnaRun] at h
      rcases hprev : rnaRun ops sols objs s m with - | s1
      · rw [hprev] at h; exact absurd h (by simp)
      · rw [hprev, Option.some_bind] at h
        rcases hcall : rna_update_sol ops s1 (sols (m + 1)) (objs (m + 1)) (m + 1)
          with - | r
        · rw [hcall] at h; exact absurd h (by simp)
        · rw [hcall, Option.map_some', Option.some.injEq] at h
          obtain ⟨hl1, hA1⟩ := ih s1 hprev
          have hf := rna_update_sol_fields ops s1 (sols (m + 1)) (objs (m + 1))
            (m + 1) r hcall
          have hA2 : r.state.adaptive = false := by rw [hf.2.1, hA1]
          have hl2 : r.state.lambda_ = s1.lambda_ := by
            have := hf.2.2.2.2.2
            rw [hA1] at this
            simpa using this
          rw [← h]
          exact ⟨hl2.trans hl1, hA2⟩

/-- Concrete instance for C3: an adaptive extrapolating call clears a
user-supplied two-entry grid. -/
theorem C3_witness :
    ∃ r, rna_update_sol opsW rnaW3 zeroVec0 [[0]] 1 = some r
      ∧ r.state.lambda_ = [] := by
  obtain ⟨r, hcall, -, -, -⟩ :=
    rna_update_sol_extrap opsW rnaW3 zeroVec0 [[0]] 1 rfl rfl (Or.inl rfl)
  refine ⟨r, hcall, ?_⟩
  have := (C3_rna_adaptive_grid_lifecycle opsW (fun _ => zeroVec0)
    (fun _ => [[0]]) rnaW3).2.1 zeroVec0 [[0]] 1 r rfl hcall
  simpa using this

/-- Evaluation of the grid-search objective values in the C1 scenario:
both flag variants of the state reach the same single candidate value 10. -/
theorem c1_fvals (s : RNAState 1) (hb : s.buffer = [fun _ => 0]) (hk : s.k = 1)
    (hl : s.lambda_ = [1/1000000]) (ha : s.adaptive = true)
    (hf : s.functions = [fobjC]) :
    rnaFvals opsC s (s.buffer ++ [fun _ => 1]) (rnaUU opsC (s.buffer ++ [fun _ => 1]))
      (rnaGridUsed opsC s (rnaUU opsC (s.buffer ++ [fun _ => 1]))) = [10] := by
  have hUU : rnaUU opsC (s.buffer ++ [fun _ => 1]) = [[1]] := by
    rw [hb]
    norm_num [rnaUU, rnaDiff, rnaGram, matScale, opsC, dotQ, Fin.sum_univ_one]
  have hgrid : rnaGridUsed opsC s (rnaUU opsC (s.buffer ++ [fun _ => 1])) = [0] := by
    rw [hUU, rnaGridUsed, ha, hl]
    norm_num [rnaRebuildGrid, opsC, sortQ, insertSorted, pairAvg]
  rw [hgrid, hUU, rnaFvals, hf, hk, hb]
  norm_num [rnaCoefFor, addLamEye, opsC, rnaExtrapFor, fevalSum, fobjC,
    show List.range 1 = [0] from rfl]

/-- The Python minimum of those candidate values. -/
theorem c1_min (s : RNAState 1) (hb : s.buffer = [fun _ => 0]) (hk : s.k = 1)
    (hl : s.lambda_ = [1/1000000]) (ha : s.adaptive = true)
    (hf : s.functions = [fobjC]) :
    listMin (rnaFvals opsC s (s.buffer ++ [fun _ => 1])
      (rnaUU opsC (s.buffer ++ [fun _ => 1]))
      (rnaGridUsed opsC s (rnaUU opsC (s.buffer ++ [fun _ => 1])))) = some 10 := by
  rw [c1_fvals s hb hk hl ha hf]; rfl

/-- Full evaluation of the C1 call: the fallback triggers, the line search
accepts the halved step, and the returned point is the midpoint. -/
theorem c1_call : Option.map (fun r => RNAResult.ret r 0)
    (rna_update_sol opsC rnaStateC (fun _ => 1) [[5]] 2) = some (1/2) := by
  have hmv := c1_min rnaStateC rfl rfl rfl rfl rfl
  have h1 : (2 : ℕ) % (rnaStateC.k + 1) = 0 := rfl
  have h2 : (rnaStateC.buffer ++ [fun _ => (1 : ℚ)]).length = rnaStateC.k + 1 := rfl
  simp only [rna_update_sol, h1, h2, eq_self_iff_true, if_true, hmv,
    Option.map_some', Option.some.injEq]
  have hpre : rnaPreLS opsC rnaStateC (fun _ => 1) [[5]]
      (rnaStateC.buffer ++ [fun _ => 1])
      (rnaUU opsC (rnaStateC.buffer ++ [fun _ => 1]))
      (rnaGridUsed opsC rnaStateC (rnaUU opsC (rnaStateC.buffer ++ [fun _ => 1])))
      (rnaFvals opsC rnaStateC (rnaStateC.buffer ++ [fun _ => 1])
        (rnaUU opsC (rnaStateC.buffer ++ [fun _ => 1]))
        (rnaGridUsed opsC rnaStateC (rnaUU opsC (rnaStateC.buffer ++ [fun _ => 1]))))
      10 = (fun _ => 1) := by
    rw [rnaPreLS, if_pos]
    exact ⟨rfl, by norm_num [objEntry]⟩
  rw [hpre, rnaLineSearch, if_pos (show rnaStateC.dolinesearch = true from rfl)]
  have harm : opsC.armijo (fun x => fevalSum rnaStateC.functions x)
      ((rnaStateC.buffer ++ [fun _ => 1]).headD (fun _ => 0))
      (fun i => 1 - ((rnaStateC.buffer ++ [fun _ => 1]).headD (fun _ => 0)) i)
      (fun i => 1 - ((rnaStateC.buffer ++ [fun _ => 1]).headD (fun _ => 0)) i)
      (objEntry [[5]] rnaStateC.k).sum (1/10000) 1 = some (1/2) := by
    show armijoGo _ _ _ _ _ _ 20 1 = some (1/2)
    rw [show (20 : ℕ) = 19 + 1 from rfl, armijoGo, if_neg]
    · rw [show (19 : ℕ) = 18 + 1 from rfl, armijoGo, if_pos]
      norm_num [fevalSum, fobjC, dotQ, Fin.sum_univ_one, rnaStateC, objEntry]
    · norm_num [fevalSum, fobjC, dotQ, Fin.sum_univ_one, rnaStateC, objEntry]
  simp only [harm]
  norm_num [rnaStateC]

/-- C1 counterexample: on this extrapolating call with
`forcedecrease = true` every grid candidate evaluates to 10, worse than
the recorded objective 5, so the fallback triggers — yet the call returns
the line-searched midpoint `1/2`, not the solver's solution `1`. -/
theorem C1_counterexample :
    listMin (rnaFvals opsC rnaStateC (rnaStateC.buffer ++ [fun _ => 1])
        (rnaUU opsC (rnaStateC.buffer ++ [fun _ => 1]))
        (rnaGridUsed opsC rnaStateC (rnaUU opsC (rnaStateC.buffer ++ [fun _ => 1]))))
      = some 10
    ∧ (objEntry [[5]] 1).sum = 5
    ∧ rnaStateC.forcedecrease = true
    ∧ Option.map (fun r => RNAResult.ret r 0)
        (rna_update_sol opsC rnaStateC (fun _ => 1) [[5]] 2) = some (1/2)
    ∧ ((fun _ => (1 : ℚ)) : Fin 1 → ℚ) 0 = 1 :=
  ⟨c1_min rnaStateC rfl rfl rfl rfl rfl, by norm_num [objEntry], rfl, c1_call, rfl⟩

/-- C1 (amended): the force-decrease guard sets the candidate point to the
solver's unmodified current solution, and that point is returned unchanged
when `dolinesearch` is off; with the line search enabled the search still
runs on the fallback point and may replace it (see the counterexample). -/
theorem C1_force_decrease_fallback {n : ℕ} (ops : NumpyOps n) (s : RNAState n)
    (sol : Fin n → ℚ) (obj : List (List ℚ)) (niter : ℕ) (r : RNAResult n)
    (hext : niter % (s.k + 1) = 0)
    (hfd : s.forcedecrease = true) (hls : s.dolinesearch = false)
    (hbad : ∀ mv, listMin (rnaFvals ops s (s.buffer ++ [sol])
        (rnaUU ops (s.buffer ++ [sol]))
        (rnaGridUsed ops s (rnaUU ops (s.buffer ++ [sol])))) = some mv →
        mv > (objEntry obj 1).sum)
    (h : rna_update_sol ops s sol obj niter = some r) :
    r.ret = sol := by
  rw [rna_update_sol, if_pos hext] at h
  by_cases hshape : (s.buffer ++ [sol]).length = s.k + 1
  · rw [if_pos hshape] at h
    rcases hmv : listMin (rnaFvals ops s (s.buffer ++ [sol])
        (rnaUU ops (s.buffer ++ [sol]))
        (rnaGridUsed ops s (rnaUU ops (s.buffer ++ [sol])))) with - | mv
    · simp only [hmv] at h; exact absurd h (by simp)
    · simp only [hmv, Option.some.injEq] at h
      have hbad2 := hbad mv hmv
      rw [← h]
      show (rnaLineSearch ops s obj (s.buffer ++ [sol])
        (rnaPreLS ops s sol obj (s.buffer ++ [sol])
          (rnaUU ops (s.buffer ++ [sol]))
          (rnaGridUsed ops s (rnaUU ops (s.buffer ++ [sol])))
          (rnaFvals ops s (s.buffer ++ [sol]) (rnaUU ops (s.buffer ++ [sol]))
            (rnaGridUsed ops s (rnaUU ops (s.buffer ++ [sol])))) mv)).2 = sol
      rw [rnaLineSearch, if_neg (by simp [hls])]
      rw [rnaPreLS, if_pos ⟨hfd, hbad2⟩]
  · rw [if_neg hshape] at h; exact absurd h (by simp)

/-- Concrete instance for C1 (amended): with `dolinesearch = false` the
fallback point — the solver's solution `1` — is returned unchanged. -/
theorem C1_witness :
    ∃ r, rna_update_sol opsC rnaStateC2 (fun _ => 1) [[5]] 2 = some r
      ∧ r.ret = (fun _ => (1 : ℚ)) := by
  obtain ⟨r, hcall, -⟩ :=
    rna_update_sol_extrap opsC rnaStateC2 (fun _ => 1) [[5]] 2 rfl rfl (Or.inl rfl)
  refine ⟨r, hcall,
    C1_force_decrease_fallback opsC rnaStateC2 (fun _ => 1) [[5]] 2 r rfl
      rfl rfl ?_ hcall⟩
  intro mv hmv
  have h10 := c1_min rnaStateC2 rfl rfl rfl rfl rfl
  rw [h10, Option.some.injEq] at hmv
  rw [← hmv]
  norm_num [objEntry]

/-- C9: on an extrapolating call with the line search enabled, a failed
Armijo search (`None`) warns and keeps the un-refined point, a found step
`a` moves to `xk + a * pk`; the call's returned point and warning flag are
exactly those of this refinement applied to the grid-search result. -/
theorem C9_linesearch_outcomes {n : ℕ} (ops : NumpyOps n) (s : RNAState n)
    (sol : Fin n → ℚ) (obj : List (List ℚ)) (niter : ℕ) (r : RNAResult n) (mv : ℚ)
    (hls : s.dolinesearch = true)
    (hext : niter % (s.k + 1) = 0)
    (hmv : listMin (rnaFvals ops s (s.buffer ++ [sol]) (rnaUU ops (s.buffer ++ [sol]))
        (rnaGridUsed ops s (rnaUU ops (s.buffer ++ [sol])))) = some mv)
    (h : rna_update_sol ops s sol obj niter = some r) :
    (∀ extrap, ops.armijo (fun x => fevalSum s.functions x)
          ((s.buffer ++ [sol]).headD (fun _ => 0))
          (fun i => extrap i - ((s.buffer ++ [sol]).headD (fun _ => 0)) i)
          (fun i => extrap i - ((s.buffer ++ [sol]).headD (fun _ => 0)) i)
          (objEntry obj s.k).sum (1/10000) 1 = Option.none →
        rnaLineSearch ops s obj (s.buffer ++ [sol]) extrap = (true, extrap))
    ∧ (∀ extrap a, ops.armijo (fun x => fevalSum s.functions x)
          ((s.buffer ++ [sol]).headD (fun _ => 0))
          (fun i => extrap i - ((s.buffer ++ [sol]).headD (fun _ => 0)) i)
          (fun i => extrap i - ((s.buffer ++ [sol]).headD (fun _ => 0)) i)
          (objEntry obj s.k).sum (1/10000) 1 = some a →
        rnaLineSearch ops s obj (s.buffer ++ [sol]) extrap =
          (false, fun i => ((s.buffer ++ [sol]).headD (fun _ => 0)) i +
            a * (extrap i - ((s.buffer ++ [sol]).headD (fun _ => 0)) i)))
    ∧ r.warned = (rnaLineSearch ops s obj (s.buffer ++ [sol])
        (rnaPreLS ops s sol obj (s.buffer ++ [sol]) (rnaUU ops (s.buffer ++ [sol]))
          (rnaGridUsed ops s (rnaUU ops (s.buffer ++ [sol])))
          (rnaFvals ops s (s.buffer ++ [sol]) (rnaUU ops (s.buffer ++ [sol]))
            (rnaGridUsed ops s (rnaUU ops (s.buffer ++ [sol])))) mv)).1
    ∧ r.ret = (rnaLineSearch ops s obj (s.buffer ++ [sol])
        (rnaPreLS ops s sol obj (s.buffer ++ [sol]) (rnaUU ops (s.buffer ++ [sol]))
          (rnaGridUsed ops s (rnaUU ops (s.buffer ++ [sol])))
          (rnaFvals ops s (s.buffer ++ [sol]) (rnaUU ops (s.buffer ++ [sol]))
            (rnaGridUsed ops s (rnaUU ops (s.buffer ++ [sol])))) mv)).2 := by
  refine ⟨fun extrap harm => ?_, fun extrap a harm => ?_, ?_⟩
  · rw [rnaLineSearch, if_pos hls]
    simp only [harm]
  · rw [rnaLineSearch, if_pos hls]
    simp only [harm]
  · rw [rna_update_sol, if_pos hext] at h
    by_cases hshape : (s.buffer ++ [sol]).length = s.k + 1
    · rw [if_pos hshape] at h
      simp only [hmv, Option.some.injEq] at h
      rw [← h]
      exact ⟨rfl, rfl⟩
    · rw [if_neg hshape] at h; exact absurd h (by simp)

/-- Concrete instance for C9: a line search that always fails makes the
extrapolating call warn and still return a point. -/
theorem C9_witness :
    ∃ r, rna_update_sol opsW rnaW9 zeroVec0 [[0]] 1 = some r
      ∧ r.warned = true := by
  obtain ⟨r, hcall, -⟩ :=
    rna_update_sol_extrap opsW rnaW9 zeroVec0 [[0]] 1 rfl rfl (Or.inl rfl)
  have hmv : listMin (rnaFvals opsW rnaW9 (rnaW9.buffer ++ [zeroVec0])
      (rnaUU opsW (rnaW9.buffer ++ [zeroVec0]))
      (rnaGridUsed opsW rnaW9 (rnaUU opsW (rnaW9.buffer ++ [zeroVec0])))) = some 0 := by
    rfl
  obtain ⟨hnone, -, hw, -⟩ :=
    C9_linesearch_outcomes opsW rnaW9 zeroVec0 [[0]] 1 r 0 rfl rfl hmv hcall
  refine ⟨r, hcall, ?_⟩
  rw [hw, hnone _ rfl]

/-- C8: for a positive-semidefinite (normalized Gram) matrix `UU`, a
regularization `lambda ≥ 0` and a non-degenerate regularized system, the
normalized coefficient vector sums to exactly 1, and the extrapolationively
formed from it is the corresponding affine combination of the first `k`
buffered points. -/
theorem C8_coefficients_sum_to_one (k : ℕ) (UU : Matrix (Fin k) (Fin k) ℝ)
    (l : ℝ) (hk : 0 < k) (hUU : UU.PosSemidef) (hl : 0 ≤ l)
    (hnd : (UU + l • (1 : Matrix (Fin k) (Fin k) ℝ)).det ≠ 0) :
    (∑ i, rnaCoefNorm k (UU + l • 1) i = 1)
    ∧ ∀ d (buf : Fin k → Fin d → ℝ),
        rnaExtrapR k d buf (rnaCoefNorm k (UU + l • 1)) =
          fun j => ∑ i, rnaCoefNorm k (UU + l • 1) i * buf i j := by
  have hsmul : (l • (1 : Matrix (Fin k) (Fin k) ℝ)).PosSemidef := by
    rw [Matrix.smul_one_eq_diagonal]
    exact Matrix.PosSemidef.diagonal (fun i => hl)
  have hpsd : (UU + l • (1 : Matrix (Fin k) (Fin k) ℝ)).PosSemidef := hUU.add hsmul
  have hunit : IsUnit (UU + l • (1 : Matrix (Fin k) (Fin k) ℝ)) :=
    (Matrix.isUnit_iff_isUnit_det _).2 (isUnit_iff_ne_zero.2 hnd)
  have hpd : (UU + l • (1 : Matrix (Fin k) (Fin k) ℝ)).PosDef := by
    refine ⟨hpsd.1, fun x hx => lt_of_le_of_ne (hpsd.2 x) (fun h0 => hx ?_)⟩
    have hzero : (UU + l • (1 : Matrix (Fin k) (Fin k) ℝ)).mulVec x = 0 :=
      (hpsd.dotProduct_mulVec_zero_iff x).1 h0.symm
    have hinj := Matrix.mulVec_injective_iff_isUnit.2 hunit
    apply hinj
    rw [hzero, Matrix.mulVec_zero]
  have hones : (fun _ => (1 : ℝ)) ≠ (0 : Fin k → ℝ) := by
    intro hzero
    have := congrFun hzero ⟨0, hk⟩
    norm_num at this
  have hsum : 0 < ∑ j, rnaCoef k (UU + l • 1) j := by
    have hq := hpd.inv.2 (fun _ => 1) hones
    have : Matrix.dotProduct (star (fun _ => (1 : ℝ)))
        ((UU + l • 1)⁻¹.mulVec (fun _ => 1)) =
        ∑ j, rnaCoef k (UU + l • 1) j := by
      simp [Matrix.dotProduct, rnaCoef]
    rwa [this] at hq
  constructor
  · simp only [rnaCoefNorm]
    rw [← Finset.sum_div]
    exact div_self (ne_of_gt hsum)
  · intro d buf
    funext j
    rw [rnaExtrapR]
    exact Finset.sum_congr rfl (fun i _ => mul_comm _ _)

/-- Concrete instance for C8: the unit system `0 + 1·I` in dimension 1. -/
theorem C8_witness :
    ∑ i, rnaCoefNorm 1 ((0 : Matrix (Fin 1) (Fin 1) ℝ) + (1 : ℝ) • 1) i = 1 :=
  (C8_coefficients_sum_to_one 1 0 1 Nat.one_pos Matrix.PosSemidef.zero
    (by norm_num) (by simp)).1

/-- C7: constructing a backtracking scheme raises exactly when `eta` lies
outside `(0, 1]`, at construction time; a valid `eta` is stored unchanged. -/
theorem C7_eta_validated_at_construction : ∀ eta : ℚ,
    ((∃ msg, backtracking_init eta = Except.error msg) ↔ ¬(0 < eta ∧ eta ≤ 1))
    ∧ (0 < eta ∧ eta ≤ 1 → backtracking_init eta = Except.ok eta) := by
  intro eta
  unfold backtracking_init
  by_cases hc : eta > 1 ∨ eta ≤ 0
  · rw [if_pos hc]
    constructor
    · constructor
      · rintro - ⟨h0, h1⟩
        rcases hc with hc | hc <;> linarith
      · intro _; exact ⟨"eta must be between 0 and 1.", rfl⟩
    · rintro ⟨h0, h1⟩
      rcases hc with hc | hc <;> linarith
  · push_neg at hc
    rw [if_neg (by push_neg; exact hc)]
    constructor
    · constructor
      · rintro ⟨msg, hmsg⟩
        exact absurd hmsg (by simp)
      · intro h; exact absurd ⟨hc.2, hc.1⟩ h
    · intro _; rfl

/-- Concrete instance of C7: `eta = 1/2` is accepted and stored, `eta = 0`
and `eta = 3/2` are rejected at construction. -/
theorem C7_witness :
    backtracking_init (1/2) = Except.ok (1/2)
    ∧ (∃ msg, backtracking_init 0 = Except.error msg)
    ∧ (∃ msg, backtracking_init (3/2) = Except.error msg) :=
  ⟨(C7_eta_validated_at_construction (1/2)).2 (by norm_num),
   ((C7_eta_validated_at_construction 0).1).mpr (by norm_num),
   ((C7_eta_validated_at_construction (3/2)).1).mpr (by norm_num)⟩
